import Mathlib

/-- Entry access for a row-major dense matrix, defaulting to `0` out of range. -/
def matEntry (A : List (List ℚ)) (i j : ℕ) : ℚ := (A.getD i []).getD j 0

/-! ### Projection engine

Modelled from the spec: the Projection Engine (`rbnicsx._backends.projection`
and its online re-export) is not part of the source slice; only its unit tests
are.  A full-order linear form is modelled as its evaluation map `α → ℚ` on
basis functions, and a bilinear form as `α → α → ℚ` taking the trial argument
first.  Row/column conventions follow the unit tests in
`src/tests/unit/backends/test_projection.py`: the rows of a projected matrix
follow the first element of the basis-functions pair. -/

/-- Modelled from the spec: `project_vector(linear_form, basis_functions)`
computes the action of the linear form against each basis function, producing
online vector entry `i` from basis function `i`. -/
def project_vector {α : Type} (linear_form : α → ℚ) (basis_functions : List α) : List ℚ :=
  basis_functions.map linear_form

/-- Modelled from the spec: the in-place overload
`project_vector(existing_vector, linear_form, basis_functions)` accumulates
(adds) the projected entries into the existing online vector. -/
def project_vector_into {α : Type} (online_vec : List ℚ) (linear_form : α → ℚ)
    (basis_functions : List α) : List ℚ :=
  List.zipWith (· + ·) online_vec (basis_functions.map linear_form)

/-- Modelled from the spec: `project_vector_block` projects one linear form per
block onto that block's basis functions and concatenates the per-block online
vectors in order. -/
def project_vector_block {α : Type} (linear_forms : List (α → ℚ))
    (basis_functions : List (List α)) : List ℚ :=
  (List.zipWith (fun L B => project_vector L B) linear_forms basis_functions).flatten

/-- Modelled from the spec: `project_matrix(bilinear_form, basis_functions)`
with a pair of basis-function lists (Petrov-Galerkin).  Following the unit
tests, the first element of the pair supplies the row (test) basis and the
second the column (trial) basis; entry `(i, j)` pairs the bilinear form with
trial function `j` and test function `i`.  The Galerkin call passes the same
list twice. -/
def project_matrix {α : Type} (bilinear_form : α → α → ℚ)
    (basis_functions : List α × List α) : List (List ℚ) :=
  basis_functions.1.map (fun test_fun =>
    basis_functions.2.map (fun trial_fun => bilinear_form trial_fun test_fun))

/-! ### Online tensor factory and import/export backend

Modelled from the spec: `rbnicsx._backends.online_tensors` and
`rbnicsx._backends.import_` (with their export counterparts) are not part of
the source slice; the online wrappers in `rbnicsx/online/import_.py` are, and
are translated below verbatim.  The filesystem is modelled as partial maps
from `(directory, filename)` to stored dense data, one map per artifact kind;
list artifacts model the count prefix followed by that many serialized
tensors.  The communication scope of a distributed run is modelled by
`MpiComm` together with the ambient process `rank`/`nprocs`: a world-scope
read yields only the caller's partition of the rows, while a self-scope read
yields the whole artifact on every process. -/

/-- Communication scope: `world` is the distributed communicator of the
hosting run, `self` the single-process communicator. -/
inductive MpiComm where
  | world
  | self
deriving DecidableEq

/-- Errors surfaced by the import backend: missing artifact, or a stored
artifact whose shape disagrees with the tensor built by the factory. -/
inductive ImportError where
  | fileNotFound
  | formatMismatch
deriving DecidableEq

/-- On-disk artifacts, one partial map per artifact kind, keyed by directory
and filename. -/
structure TensorFiles where
  matFiles : String → String → Option (List (List ℚ))
  vecFiles : String → String → Option (List ℚ)
  matListFiles : String → String → Option (List (List (List ℚ)))
  vecListFiles : String → String → Option (List (List ℚ))

/-- An empty filesystem with no stored artifacts. -/
def emptyTensorFiles : TensorFiles :=
  ⟨fun _ _ => none, fun _ _ => none, fun _ _ => none, fun _ _ => none⟩

/-- Modelled from the spec: the portion of a stored sequence of entries seen
by one process.  A self-scope read returns everything; a world-scope read
returns only the contiguous chunk owned by the calling rank. -/
def localPortion {α : Type} (comm : MpiComm) (rank nprocs : ℕ) (entries : List α) : List α :=
  match comm with
  | .self => entries
  | .world => (entries.drop (rank * (entries.length / max nprocs 1))).take
      (entries.length / max nprocs 1)

/-- Modelled from the spec: `create_online_matrix(M, N)` returns a zero-filled
assembled sequential dense matrix of exactly the requested size. -/
def create_online_matrix (M N : ℕ) : List (List ℚ) :=
  List.replicate M (List.replicate N 0)

/-- Modelled from the spec: `create_online_vector(N)` returns a zero-filled
sequential dense vector of exactly the requested size. -/
def create_online_vector (N : ℕ) : List ℚ :=
  List.replicate N 0

/-- Modelled from the spec: the block variant allocates a single dense matrix
whose total size is the sum of the block sizes. -/
def create_online_matrix_block (M N : List ℕ) : List (List ℚ) :=
  create_online_matrix M.sum N.sum

/-- Modelled from the spec: the block variant allocates a single dense vector
whose total size is the sum of the block sizes. -/
def create_online_vector_block (N : List ℕ) : List ℚ :=
  create_online_vector N.sum

/-- Shape of a row-major dense matrix: row count and per-row lengths. -/
def matShape (A : List (List ℚ)) : ℕ × List ℕ := (A.length, A.map List.length)

/-- Modelled from the spec: `import_matrix(factory, comm, directory, filename)`
constructs a tensor via the factory and fills it from the named artifact
within the given communication scope; a missing artifact or a shape mismatch
is an error. -/
def import_matrix_super (factory : Unit → List (List ℚ)) (comm : MpiComm)
    (rank nprocs : ℕ) (files : TensorFiles) (directory filename : String) :
    Except ImportError (List (List ℚ)) :=
  match files.matFiles directory filename with
  | none => .error .fileNotFound
  | some stored =>
      if matShape stored = matShape (factory ()) then
        .ok (localPortion comm rank nprocs stored)
      else .error .formatMismatch

/-- Modelled from the spec: vector analogue of the matrix import. -/
def import_vector_super (factory : Unit → List ℚ) (comm : MpiComm)
    (rank nprocs : ℕ) (files : TensorFiles) (directory filename : String) :
    Except ImportError (List ℚ) :=
  match files.vecFiles directory filename with
  | none => .error .fileNotFound
  | some stored =>
      if stored.length = (factory ()).length then
        .ok (localPortion comm rank nprocs stored)
      else .error .formatMismatch

/-- Modelled from the spec: `import_matrices` reads a count prefix followed by
that many serialized matrices, each filled into a tensor built by the factory,
returned as an ordered sequence. -/
def import_matrices_super (factory : Unit → List (List ℚ)) (comm : MpiComm)
    (rank nprocs : ℕ) (files : TensorFiles) (directory filename : String) :
    Except ImportError (List (List (List ℚ))) :=
  match files.matListFiles directory filename with
  | none => .error .fileNotFound
  | some stored =>
      if ∀ B ∈ stored, matShape B = matShape (factory ()) then
        .ok (stored.map (localPortion comm rank nprocs))
      else .error .formatMismatch

/-- Modelled from the spec: vector analogue of the matrix-list import. -/
def import_vectors_super (factory : Unit → List ℚ) (comm : MpiComm)
    (rank nprocs : ℕ) (files : TensorFiles) (directory filename : String) :
    Except ImportError (List (List ℚ)) :=
  match files.vecListFiles directory filename with
  | none => .error .fileNotFound
  | some stored =>
      if ∀ y ∈ stored, y.length = (factory ()).length then
        .ok (stored.map (localPortion comm rank nprocs))
      else .error .formatMismatch

/-- Modelled from the spec: the export counterpart persists a matrix to the
named artifact. -/
def export_matrix_super (A : List (List ℚ)) (files : TensorFiles)
    (directory filename : String) : TensorFiles :=
  { files with matFiles := fun d f =>
      if d = directory ∧ f = filename then some A else files.matFiles d f }

/-- Modelled from the spec: the export counterpart persists a vector to the
named artifact. -/
def export_vector_super (x : List ℚ) (files : TensorFiles)
    (directory filename : String) : TensorFiles :=
  { files with vecFiles := fun d f =>
      if d = directory ∧ f = filename then some x else files.vecFiles d f }

/-- Modelled from the spec: the export counterpart persists an ordered
sequence of matrices, count prefix included, to the named artifact. -/
def export_matrices_super (As : List (List (List ℚ))) (files : TensorFiles)
    (directory filename : String) : TensorFiles :=
  { files with matListFiles := fun d f =>
      if d = directory ∧ f = filename then some As else files.matListFiles d f }

/-- Modelled from the spec: the export counterpart persists an ordered
sequence of vectors, count prefix included, to the named artifact. -/
def export_vectors_super (xs : List (List ℚ)) (files : TensorFiles)
    (directory filename : String) : TensorFiles :=
  { files with vecListFiles := fun d f =>
      if d = directory ∧ f = filename then some xs else files.vecListFiles d f }

/-- Online `import_matrix(M, N, directory, filename)`: delegates to the
generic import with an online factory and the single-process communicator. -/
def import_matrix (M N : ℕ) (rank nprocs : ℕ) (files : TensorFiles)
    (directory filename : String) : Except ImportError (List (List ℚ)) :=
  import_matrix_super (fun _ => create_online_matrix M N) MpiComm.self
    rank nprocs files directory filename

/-- Online `import_matrix_block(M, N, directory, filename)`. -/
def import_matrix_block (M N : List ℕ) (rank nprocs : ℕ) (files : TensorFiles)
    (directory filename : String) : Except ImportError (List (List ℚ)) :=
  import_matrix_super (fun _ => create_online_matrix_block M N) MpiComm.self
    rank nprocs files directory filename

/-- Online `import_matrices(M, N, directory, filename)`. -/
def import_matrices (M N : ℕ) (rank nprocs : ℕ) (files : TensorFiles)
    (directory filename : String) : Except ImportError (List (List (List ℚ))) :=
  import_matrices_super (fun _ => create_online_matrix M N) MpiComm.self
    rank nprocs files directory filename

/-- Online `import_matrices_block(M, N, directory, filename)`. -/
def import_matrices_block (M N : List ℕ) (rank nprocs : ℕ) (files : TensorFiles)
    (directory filename : String) : Except ImportError (List (List (List ℚ))) :=
  import_matrices_super (fun _ => create_online_matrix_block M N) MpiComm.self
    rank nprocs files directory filename

/-- Online `import_vector(N, directory, filename)`. -/
def import_vector (N : ℕ) (rank nprocs : ℕ) (files : TensorFiles)
    (directory filename : String) : Except ImportError (List ℚ) :=
  import_vector_super (fun _ => create_online_vector N) MpiComm.self
    rank nprocs files directory filename

/-- Online `import_vector_block(N, directory, filename)`. -/
def import_vector_block (N : List ℕ) (rank nprocs : ℕ) (files : TensorFiles)
    (directory filename : String) : Except ImportError (List ℚ) :=
  import_vector_super (fun _ => create_online_vector_block N) MpiComm.self
    rank nprocs files directory filename

/-- Online `import_vectors(N, directory, filename)`. -/
def import_vectors (N : ℕ) (rank nprocs : ℕ) (files : TensorFiles)
    (directory filename : String) : Except ImportError (List (List ℚ)) :=
  import_vectors_super (fun _ => create_online_vector N) MpiComm.self
    rank nprocs files directory filename

/-- Online `import_vectors_block(N, directory, filename)`. -/
def import_vectors_block (N : List ℕ) (rank nprocs : ℕ) (files : TensorFiles)
    (directory filename : String) : Except ImportError (List (List ℚ)) :=
  import_vectors_super (fun _ => create_online_vector_block N) MpiComm.self
    rank nprocs files directory filename

/-! ### POD engine

The generic POD backend (`rbnicsx._backends.proper_orthogonal_decomposition`)
is not part of the source slice; the online wrappers and the dispatcher in
`rbnicsx/online/proper_orthogonal_decomposition.py` are, and are translated
below.  The eigenvalue solver itself is an external collaborator (SLEPc) and
is modelled as an explicit `solver` argument mapping a correlation matrix to
an eigenvalue list paired with an eigenvector list; the numeric square root is
likewise an external numeric collaborator, modelled as the explicit `sq`
argument.  The pipeline — build correlation matrix, eigendecompose, sort
descending, truncate by count and retained energy, reconstruct modes,
optionally normalize — is modelled from the spec. -/

/-- Euclidean pairing of two online vectors (sum over index range of the
first argument, missing entries reading as zero). -/
def dotQ (x y : List ℚ) : ℚ :=
  ∑ i in Finset.range x.length, x.getD i 0 * y.getD i 0

/-- Dense matrix application to an online vector, row by row. -/
def matVecQ (A : List (List ℚ)) (x : List ℚ) : List ℚ :=
  A.map (fun row => dotQ row x)

/-- Modelled from the spec: `matrix_action(A)` from the online projection
backend, the inner-product action callable mapping two online vectors to the
scalar `yᵀ A x`. -/
def matActionQ (A : List (List ℚ)) (x y : List ℚ) : ℚ :=
  dotQ y (matVecQ A x)

/-- Modelled from the spec: the correlation matrix, whose entry `(i, j)` is
the caller-supplied inner product of snapshot `i` and snapshot `j`. -/
def correlationMatrixF (inner_product : List ℚ → List ℚ → ℚ)
    (snapshots : List (List ℚ)) : List (List ℚ) :=
  snapshots.map (fun si => snapshots.map (fun sj => inner_product sj si))

/-- Modelled from the spec: a mode is the linear combination of all snapshots
with weights given by an eigenvector's entries, in a function space of
dimension `d`. -/
def lincomb (coeffs : List ℚ) (snapshots : List (List ℚ)) (d : ℕ) : List ℚ :=
  (List.range d).map (fun p =>
    ∑ i in Finset.range snapshots.length, coeffs.getD i 0 * (snapshots.getD i []).getD p 0)

/-- Modelled from the spec: the retained-energy criterion,
`sum(eigenvalues[0:k]) / sum(eigenvalues)`. -/
def retainedEnergy (eigenvalues : List ℚ) (k : ℕ) : ℚ :=
  (eigenvalues.take k).sum / eigenvalues.sum

/-- Modelled from the spec: the truncation stopping condition at index `k` —
either the maximum number of modes `N` is reached or the retained-energy
ratio meets or exceeds `1 - tol`. -/
def podStopCond (eigenvalues : List ℚ) (N : ℕ) (tol : ℚ) (k : ℕ) : Prop :=
  k = N ∨ 1 - tol ≤ retainedEnergy eigenvalues k

instance podStopCond.instDecidable (eigenvalues : List ℚ) (N : ℕ) (tol : ℚ) (k : ℕ) :
    Decidable (podStopCond eigenvalues N tol k) :=
  inferInstanceAs (Decidable (k = N ∨ 1 - tol ≤ retainedEnergy eigenvalues k))

/-- Modelled from the spec: scan upward from index `k` with the given fuel,
stopping at the first index satisfying the truncation condition. -/
def truncFrom (eigenvalues : List ℚ) (N : ℕ) (tol : ℚ) : ℕ → ℕ → ℕ
  | k, 0 => k
  | k, fuel + 1 =>
      if podStopCond eigenvalues N tol k then k
      else truncFrom eigenvalues N tol (k + 1) fuel

/-- Modelled from the spec: the number of retained modes — the first index `k`
at which the truncation condition holds, and `0` when all eigenvalues are
zero. -/
def retainedModesCount (eigenvalues : List ℚ) (N : ℕ) (tol : ℚ) : ℕ :=
  if ∀ lam ∈ eigenvalues, lam = 0 then 0
  else truncFrom eigenvalues N tol 0 (eigenvalues.length + 1)

/-- Scale an online vector (from `rbnicsx/online/proper_orthogonal_decomposition.py`:
`vector *= factor`). -/
def _scale_online_vector (vector : List ℚ) (factor : ℚ) : List ℚ :=
  vector.map (fun a => factor * a)

/-- Modelled from the spec: the eigenpairs sorted descending by eigenvalue. -/
def sortedEigenpairs (eigenvalues : List ℚ) (eigenvectors : List (List ℚ)) :
    List (ℚ × List ℚ) :=
  List.insertionSort (fun p q => q.1 ≤ p.1) (eigenvalues.zip eigenvectors)

instance pairDescRelDecidable :
    DecidableRel (fun p q : ℚ × List ℚ => q.1 ≤ p.1) :=
  fun p q => inferInstanceAs (Decidable (q.1 ≤ p.1))

instance pairDescRelTotal : IsTotal (ℚ × List ℚ) (fun p q => q.1 ≤ p.1) :=
  ⟨fun a b => le_total b.1 a.1⟩

instance pairDescRelTrans : IsTrans (ℚ × List ℚ) (fun p q => q.1 ≤ p.1) :=
  ⟨fun _ _ _ h1 h2 => le_trans h2 h1⟩

/-- The result of a proper orthogonal decomposition: the full eigenvalue
array, the retained modes, and the retained eigenvectors. -/
structure PODResult where
  eigenvalues : List ℚ
  modes : List (List ℚ)
  eigenvectors : List (List ℚ)
deriving DecidableEq

/-- Modelled from the spec: truncation, mode reconstruction and optional
normalization over eigenpairs already sorted descending.  Each retained mode
is the eigenvector-weighted combination of the snapshots; when `normalize` is
set and the eigenvalue is positive, the mode and its eigenvector are scaled
by `1 / sqrt(eigenvalue)`, and a non-positive eigenvalue leaves them
unscaled. -/
def podRetain (sq : ℚ → ℚ) (snapshots : List (List ℚ)) (d : ℕ)
    (scale : List ℚ → ℚ → List ℚ) (eigenvalues : List ℚ) (eigenvectors : List (List ℚ))
    (N : ℕ) (tol : ℚ) (normalize : Bool) : PODResult :=
  let k := retainedModesCount eigenvalues N tol
  let retained := (List.range k).map (fun i =>
    let lam := eigenvalues.getD i 0
    let vi := eigenvectors.getD i []
    let mode := lincomb vi snapshots d
    if normalize then
      if 0 < lam then (scale mode (1 / sq lam), scale vi (1 / sq lam))
      else (mode, vi)
    else (mode, vi))
  { eigenvalues := eigenvalues
    modes := retained.map Prod.fst
    eigenvectors := retained.map Prod.snd }

/-- Modelled from the spec:
`proper_orthogonal_decomposition_functions(functions_list, compute_inner_product, scale, N, tol, normalize)`
— build the correlation matrix from the supplied inner-product action,
eigendecompose through the external solver, sort descending, then truncate,
reconstruct and optionally normalize. -/
def proper_orthogonal_decomposition_functions_super (sq : ℚ → ℚ)
    (solver : List (List ℚ) → List ℚ × List (List ℚ)) (d : ℕ)
    (functions_list : List (List ℚ)) (compute_inner_product : List ℚ → List ℚ → ℚ)
    (scale : List ℚ → ℚ → List ℚ) (N : ℕ) (tol : ℚ) (normalize : Bool) : PODResult :=
  let correlation := correlationMatrixF compute_inner_product functions_list
  let eig := solver correlation
  let pairs := sortedEigenpairs eig.1 eig.2
  podRetain sq functions_list d scale (pairs.map Prod.fst) (pairs.map Prod.snd)
    N tol normalize

/-- The dispatched implementation registered for `FunctionsList` snapshots
(from `rbnicsx/online/proper_orthogonal_decomposition.py`): build the inner
product action from the online matrix and delegate to the generic backend
with `_scale_online_vector`. -/
def proper_orthogonal_decomposition_functions (sq : ℚ → ℚ)
    (solver : List (List ℚ) → List ℚ × List (List ℚ))
    (functions_list : List (List ℚ)) (inner_product : List (List ℚ)) (d : ℕ)
    (N : ℕ) (tol : ℚ) (normalize : Bool) : PODResult :=
  proper_orthogonal_decomposition_functions_super sq solver d functions_list
    (matActionQ inner_product) _scale_online_vector N tol normalize

/-- The dispatched implementation registered for `TensorsList` snapshots
(from `rbnicsx/online/proper_orthogonal_decomposition.py`), delegating to the
generic backend with the tensor-native (Frobenius) inner product over the
flattened tensors. -/
def proper_orthogonal_decomposition_tensors (sq : ℚ → ℚ)
    (solver : List (List ℚ) → List ℚ × List (List ℚ))
    (tensors_list : List (List ℚ)) (d : ℕ) (N : ℕ) (tol : ℚ) (normalize : Bool) :
    PODResult :=
  proper_orthogonal_decomposition_functions_super sq solver d tensors_list
    dotQ _scale_online_vector N tol normalize

/-- The runtime type of the first argument passed to the single-dispatch
entry point: a `FunctionsList` with its inner product, a `TensorsList`, or
any other object. -/
inductive PODDispatchArg where
  | functionsList (functions_list : List (List ℚ)) (inner_product : List (List ℚ))
  | tensorsList (tensors_list : List (List ℚ))
  | otherObject (description : String)

/-- The single-dispatch base function
`_proper_orthogonal_decomposition` (from
`rbnicsx/online/proper_orthogonal_decomposition.py`): the registered
overloads handle `FunctionsList` and `TensorsList` snapshots; any other
argument type falls through to the base implementation, which raises
`RuntimeError("Please run the dispatched implementation.")`. -/
def _proper_orthogonal_decomposition (sq : ℚ → ℚ)
    (solver : List (List ℚ) → List ℚ × List (List ℚ)) (d : ℕ)
    (snapshots : PODDispatchArg) (N : ℕ) (tol : ℚ) (normalize : Bool) :
    Except String PODResult :=
  match snapshots with
  | .functionsList functions_list inner_product =>
      .ok (proper_orthogonal_decomposition_functions sq solver functions_list
        inner_product d N tol normalize)
  | .tensorsList tensors_list =>
      .ok (proper_orthogonal_decomposition_tensors sq solver tensors_list d N tol normalize)
  | .otherObject _ => .error "Please run the dispatched implementation."

/-- The public dispatcher `proper_orthogonal_decomposition` (from
`rbnicsx/online/proper_orthogonal_decomposition.py`), which forwards all
arguments to the single-dispatch function. -/
def proper_orthogonal_decomposition (sq : ℚ → ℚ)
    (solver : List (List ℚ) → List ℚ × List (List ℚ)) (d : ℕ)
    (snapshots : PODDispatchArg) (N : ℕ) (tol : ℚ) (normalize : Bool) :
    Except String PODResult :=
  _proper_orthogonal_decomposition sq solver d snapshots N tol normalize

/-- A concrete POD run with three orthonormal snapshots, identity inner
product, eigenvalues `[4, 1, 0]`, `N = 2` and `tol = 1/5`. -/
def podExampleC3 : PODResult :=
  proper_orthogonal_decomposition_functions (fun q => q)
    (fun _ => (([4, 1, 0] : List ℚ), ([[1, 0, 0], [0, 1, 0], [0, 0, 1]] : List (List ℚ))))
    [[1, 0, 0], [0, 1, 0], [0, 0, 1]] [[1, 0, 0], [0, 1, 0], [0, 0, 1]] 3 2 (1/5) true

/-- A degenerate concrete POD run: one empty snapshot, empty inner-product
matrix, solver output `([0], [[1]])`. -/
def podExampleC5 : PODResult :=
  proper_orthogonal_decomposition_functions (fun q => q)
    (fun _ => (([0] : List ℚ), ([[1]] : List (List ℚ)))) [[]] [] 0 0 0 true

/-!
Verification of the RBniCSx online backend against its specification.

The repository slice under verification contains the online wrappers
(`rbnicsx/online/proper_orthogonal_decomposition.py`, `rbnicsx/online/import_.py`)
and the unit tests for the projection and export/import backends.  The generic
backends they delegate to (`rbnicsx._backends.projection`,
`rbnicsx._backends.proper_orthogonal_decomposition`,
`rbnicsx._backends.import_`, `rbnicsx._backends.online_tensors`) are not part
of the slice and are modelled from the specification, with conventions pinned
by the unit tests where those are available.  Scalars are modelled exactly by
rationals; online vectors are `List ℚ` and online matrices are `List (List ℚ)`
in row-major layout.
-/

/-! ### List access helpers -/

/-- Reading a mapped list at an in-range index evaluates the function at the
underlying element. -/
lemma getD_map_get {α β : Type _} (f : α → β) (dy : β) :
    ∀ (l : List α) (i : ℕ) (h : i < l.length), (l.map f).getD i dy = f (l.get ⟨i, h⟩)
  | _ :: _, 0, _ => rfl
  | _ :: l, i + 1, h => getD_map_get f dy l i (Nat.lt_of_succ_lt_succ h)
  | [], _, h => absurd h (by simp)

/-- `getD` agrees with `get` at an in-range index. -/
lemma getD_lt_eq_get {α : Type _} (d : α) :
    ∀ (l : List α) (i : ℕ) (h : i < l.length), l.getD i d = l.get ⟨i, h⟩
  | _ :: _, 0, _ => rfl
  | _ :: l, i + 1, h => getD_lt_eq_get d l i (Nat.lt_of_succ_lt_succ h)
  | [], _, h => absurd h (by simp)

/-- Reading `List.range n` at an in-range index gives the index itself. -/
lemma getD_range_lt (d n i : ℕ) (h : i < n) : (List.range n).getD i d = i := by
  rw [getD_lt_eq_get d _ i (by simpa using h)]
  simp

/-- An in-range `getD` read returns a member of the list. -/
lemma getD_lt_mem {α : Type _} (d : α) (l : List α) (i : ℕ) (h : i < l.length) :
    l.getD i d ∈ l := by
  rw [getD_lt_eq_get d l i h]
  exact l.get_mem _ _

/-! ### Claims C1, C6, C7: projection engine -/

/-- C1 (counterexample): the claim reads the basis-functions pair as
`(trial_list, test_list)` and predicts shape `(len(test_list), len(trial_list))`,
i.e. a row count equal to the length of the second list.  With a pair whose
lists have lengths 1 and 2 the projected matrix has 1 row, not 2, matching the
unit test `test_projection_matrix_petrov_galerkin` where the pair
`(fl[:2], fl[2:5])` produces shape `(2, 3)`. -/
theorem project_matrix_pair_order_counterexample :
    ¬ ((project_matrix (fun x y : ℚ => x * y) (([3], [5, 7]) : List ℚ × List ℚ)).length
        = ([5, 7] : List ℚ).length) := by
  decide

/-- C1 (amended): `project_matrix` called with the pair
`(test_list, trial_list)` — first element the test (row) basis, second the
trial (column) basis — returns a matrix of shape
`(len(test_list), len(trial_list))` whose entry `(i, j)` is the pairing of the
bilinear form with trial-basis `j` and test-basis `i`. -/
theorem project_matrix_petrov_galerkin_spec {α : Type} (a : α → α → ℚ)
    (test_functions trial_functions : List α) (i j : ℕ)
    (hi : i < test_functions.length) (hj : j < trial_functions.length) :
    (project_matrix a (test_functions, trial_functions)).length = test_functions.length ∧
    (∀ row ∈ project_matrix a (test_functions, trial_functions),
      row.length = trial_functions.length) ∧
    matEntry (project_matrix a (test_functions, trial_functions)) i j
      = a (trial_functions.get ⟨j, hj⟩) (test_functions.get ⟨i, hi⟩) := by
  refine ⟨by simp [project_matrix], ?_, ?_⟩
  · intro row hrow
    simp only [project_matrix] at hrow
    obtain ⟨t, _, rfl⟩ := List.mem_map.mp hrow
    simp
  · unfold matEntry project_matrix
    rw [getD_map_get _ ([] : List ℚ) test_functions i hi,
      getD_map_get _ (0 : ℚ) trial_functions j hj]

/-- C1 (witness): concrete instantiation of the amended Petrov-Galerkin
projection property with a test basis of length 2 and a trial basis of
length 1. -/
theorem project_matrix_petrov_galerkin_spec_witness :
    (0 : ℕ) < 2 ∧ (0 : ℕ) < 1 ∧
    ((project_matrix (fun x y : ℚ => x + 2 * y) ([10, 20], [30])).length = 2 ∧
      (∀ row ∈ project_matrix (fun x y : ℚ => x + 2 * y) ([10, 20], [30]),
        row.length = 1) ∧
      matEntry (project_matrix (fun x y : ℚ => x + 2 * y) ([10, 20], [30])) 0 0
        = (fun x y : ℚ => x + 2 * y) 30 10) :=
  ⟨by decide, by decide,
    project_matrix_petrov_galerkin_spec (fun x y : ℚ => x + 2 * y) [10, 20] [30] 0 0
      (by decide) (by decide)⟩

/-- C6: the in-place overload of `project_vector` adds into the existing online
vector, so projecting `0.4 * L` into a fresh vector and then accumulating
`0.6 * L` into it reproduces `project_vector L`; the engine applies no
implicit scaling of the forms. -/
theorem project_vector_into_accumulates {α : Type} (linear_form : α → ℚ)
    (basis_functions : List α) (online_vec : List ℚ) :
    project_vector_into online_vec linear_form basis_functions
      = List.zipWith (· + ·) online_vec (project_vector linear_form basis_functions) ∧
    project_vector_into
        (project_vector (fun b => (0.4 : ℚ) * linear_form b) basis_functions)
        (fun b => (0.6 : ℚ) * linear_form b) basis_functions
      = project_vector linear_form basis_functions := by
  refine ⟨rfl, ?_⟩
  induction basis_functions with
  | nil => rfl
  | cons b rest ih =>
    simp only [project_vector, project_vector_into, List.map_cons, List.zipWith_cons_cons,
      List.cons.injEq] at ih ⊢
    exact ⟨by ring, ih⟩

/-- C7: projecting a pair of linear forms onto matching per-block bases yields
one concatenated vector of length `len B0 + len B1` whose first segment is
`project_vector L0 B0` and whose remaining segment is `project_vector L1 B1`. -/
theorem project_vector_block_concat {α : Type} (L0 L1 : α → ℚ) (B0 B1 : List α) :
    (project_vector_block [L0, L1] [B0, B1]).length = B0.length + B1.length ∧
    (project_vector_block [L0, L1] [B0, B1]).take B0.length = project_vector L0 B0 ∧
    (project_vector_block [L0, L1] [B0, B1]).drop B0.length = project_vector L1 B1 := by
  have hcat : project_vector_block [L0, L1] [B0, B1]
      = project_vector L0 B0 ++ project_vector L1 B1 := by
    simp [project_vector_block]
  have hlen : (project_vector L0 B0).length = B0.length := by simp [project_vector]
  refine ⟨?_, ?_, ?_⟩
  · simp [hcat, project_vector]
  · rw [hcat, ← hlen, List.take_left]
  · rw [hcat, ← hlen, List.drop_left]

/-- A self-scope read sees the whole artifact. -/
lemma localPortion_self {α : Type} (rank nprocs : ℕ) (entries : List α) :
    localPortion MpiComm.self rank nprocs entries = entries := rfl

/-- Mapping a self-scope read over a list of artifacts is the identity. -/
lemma map_localPortion_self {α : Type} (rank nprocs : ℕ) (l : List (List α)) :
    l.map (localPortion MpiComm.self rank nprocs) = l := by
  have h : (localPortion MpiComm.self rank nprocs : List α → List α) = id := rfl
  rw [h, List.map_id]

/-- A self-scope matrix import is independent of the ambient rank and process
count. -/
lemma import_matrix_super_self_rank_indep (factory : Unit → List (List ℚ))
    (rank nprocs rank' nprocs' : ℕ) (files : TensorFiles) (directory filename : String) :
    import_matrix_super factory MpiComm.self rank nprocs files directory filename
      = import_matrix_super factory MpiComm.self rank' nprocs' files directory filename := by
  unfold import_matrix_super
  cases files.matFiles directory filename <;> simp [localPortion_self]

/-- A self-scope vector import is independent of the ambient rank and process
count. -/
lemma import_vector_super_self_rank_indep (factory : Unit → List ℚ)
    (rank nprocs rank' nprocs' : ℕ) (files : TensorFiles) (directory filename : String) :
    import_vector_super factory MpiComm.self rank nprocs files directory filename
      = import_vector_super factory MpiComm.self rank' nprocs' files directory filename := by
  unfold import_vector_super
  cases files.vecFiles directory filename <;> simp [localPortion_self]

/-- A self-scope matrix-list import is independent of the ambient rank and
process count. -/
lemma import_matrices_super_self_rank_indep (factory : Unit → List (List ℚ))
    (rank nprocs rank' nprocs' : ℕ) (files : TensorFiles) (directory filename : String) :
    import_matrices_super factory MpiComm.self rank nprocs files directory filename
      = import_matrices_super factory MpiComm.self rank' nprocs' files directory filename := by
  unfold import_matrices_super
  cases files.matListFiles directory filename <;> simp [map_localPortion_self]

/-- A self-scope vector-list import is independent of the ambient rank and
process count. -/
lemma import_vectors_super_self_rank_indep (factory : Unit → List ℚ)
    (rank nprocs rank' nprocs' : ℕ) (files : TensorFiles) (directory filename : String) :
    import_vectors_super factory MpiComm.self rank nprocs files directory filename
      = import_vectors_super factory MpiComm.self rank' nprocs' files directory filename := by
  unfold import_vectors_super
  cases files.vecListFiles directory filename <;> simp [map_localPortion_self]

/-- C8: every import operation of the online backend delegates to its generic
backend with the single-process communication scope, and its result is
therefore independent of the ambient rank and process count of the hosting
run — every process holds an identical replicated copy of the imported
object. -/
theorem online_import_single_process_scope (M N : ℕ) (Mb Nb : List ℕ)
    (rank nprocs rank' nprocs' : ℕ) (files : TensorFiles) (directory filename : String) :
    (import_matrix M N rank nprocs files directory filename
        = import_matrix_super (fun _ => create_online_matrix M N) MpiComm.self
            rank nprocs files directory filename
      ∧ import_matrix M N rank nprocs files directory filename
        = import_matrix M N rank' nprocs' files directory filename) ∧
    (import_matrix_block Mb Nb rank nprocs files directory filename
        = import_matrix_super (fun _ => create_online_matrix_block Mb Nb) MpiComm.self
            rank nprocs files directory filename
      ∧ import_matrix_block Mb Nb rank nprocs files directory filename
        = import_matrix_block Mb Nb rank' nprocs' files directory filename) ∧
    (import_matrices M N rank nprocs files directory filename
        = import_matrices_super (fun _ => create_online_matrix M N) MpiComm.self
            rank nprocs files directory filename
      ∧ import_matrices M N rank nprocs files directory filename
        = import_matrices M N rank' nprocs' files directory filename) ∧
    (import_matrices_block Mb Nb rank nprocs files directory filename
        = import_matrices_super (fun _ => create_online_matrix_block Mb Nb) MpiComm.self
            rank nprocs files directory filename
      ∧ import_matrices_block Mb Nb rank nprocs files directory filename
        = import_matrices_block Mb Nb rank' nprocs' files directory filename) ∧
    (import_vector N rank nprocs files directory filename
        = import_vector_super (fun _ => create_online_vector N) MpiComm.self
            rank nprocs files directory filename
      ∧ import_vector N rank nprocs files directory filename
        = import_vector N rank' nprocs' files directory filename) ∧
    (import_vector_block Nb rank nprocs files directory filename
        = import_vector_super (fun _ => create_online_vector_block Nb) MpiComm.self
            rank nprocs files directory filename
      ∧ import_vector_block Nb rank nprocs files directory filename
        = import_vector_block Nb rank' nprocs' files directory filename) ∧
    (import_vectors N rank nprocs files directory filename
        = import_vectors_super (fun _ => create_online_vector N) MpiComm.self
            rank nprocs files directory filename
      ∧ import_vectors N rank nprocs files directory filename
        = import_vectors N rank' nprocs' files directory filename) ∧
    (import_vectors_block Nb rank nprocs files directory filename
        = import_vectors_super (fun _ => create_online_vector_block Nb) MpiComm.self
            rank nprocs files directory filename
      ∧ import_vectors_block Nb rank nprocs files directory filename
        = import_vectors_block Nb rank' nprocs' files directory filename) :=
  ⟨⟨rfl, import_matrix_super_self_rank_indep _ rank nprocs rank' nprocs' files directory filename⟩,
    ⟨rfl, import_matrix_super_self_rank_indep _ rank nprocs rank' nprocs' files directory filename⟩,
    ⟨rfl, import_matrices_super_self_rank_indep _ rank nprocs rank' nprocs' files directory filename⟩,
    ⟨rfl, import_matrices_super_self_rank_indep _ rank nprocs rank' nprocs' files directory filename⟩,
    ⟨rfl, import_vector_super_self_rank_indep _ rank nprocs rank' nprocs' files directory filename⟩,
    ⟨rfl, import_vector_super_self_rank_indep _ rank nprocs rank' nprocs' files directory filename⟩,
    ⟨rfl, import_vectors_super_self_rank_indep _ rank nprocs rank' nprocs' files directory filename⟩,
    ⟨rfl, import_vectors_super_self_rank_indep _ rank nprocs rank' nprocs' files directory filename⟩⟩

/-- A matrix with `M` rows of length `N` has the shape of a fresh online
`M × N` matrix. -/
lemma matShape_eq_create (A : List (List ℚ)) (M N : ℕ) (hM : A.length = M)
    (hrows : ∀ row ∈ A, row.length = N) :
    matShape A = matShape (create_online_matrix M N) := by
  unfold matShape create_online_matrix
  refine Prod.ext (by simpa using hM) ?_
  simp only [List.map_replicate, List.length_replicate]
  exact List.eq_replicate_iff.mpr ⟨by simpa using hM, by simpa using hrows⟩

/-- C9: exporting a matrix, a vector, or an ordered list thereof and importing
it back from the same directory and filename yields exactly the original
object (sequences come back with the same length and order). -/
theorem export_import_roundtrip (A : List (List ℚ)) (x : List ℚ)
    (As : List (List (List ℚ))) (xs : List (List ℚ)) (M N : ℕ)
    (rank nprocs : ℕ) (files : TensorFiles) (directory filename : String)
    (hM : A.length = M) (hrows : ∀ row ∈ A, row.length = N) (hx : x.length = N)
    (hAs : ∀ B ∈ As, B.length = M ∧ ∀ row ∈ B, row.length = N)
    (hxs : ∀ y ∈ xs, y.length = N) :
    import_matrix M N rank nprocs (export_matrix_super A files directory filename)
        directory filename = .ok A ∧
    import_vector N rank nprocs (export_vector_super x files directory filename)
        directory filename = .ok x ∧
    import_matrices M N rank nprocs (export_matrices_super As files directory filename)
        directory filename = .ok As ∧
    import_vectors N rank nprocs (export_vectors_super xs files directory filename)
        directory filename = .ok xs := by
  have hshape := matShape_eq_create A M N hM hrows
  have hAll : ∀ B ∈ As, matShape B = matShape (create_online_matrix M N) :=
    fun B hB => matShape_eq_create B M N (hAs B hB).1 (hAs B hB).2
  have hxsAll : ∀ y ∈ xs, y.length = (create_online_vector N).length := by
    simpa [create_online_vector] using hxs
  refine ⟨?_, ?_, ?_, ?_⟩
  · simp [import_matrix, import_matrix_super, export_matrix_super, hshape, localPortion_self]
  · simp [import_vector, import_vector_super, export_vector_super, create_online_vector, hx,
      localPortion_self]
  · simp only [import_matrices, import_matrices_super, export_matrices_super,
      map_localPortion_self]
    simp only [if_pos trivial, and_self]
    rw [if_pos hAll]
  · simp only [import_vectors, import_vectors_super, export_vectors_super,
      map_localPortion_self]
    simp only [if_pos trivial, and_self]
    rw [if_pos hxsAll]

/-- C9 (witness): round-trip at a concrete 2×2 matrix, a concrete vector of
length 2, and concrete one-element lists of each, starting from an empty
filesystem. -/
theorem export_import_roundtrip_witness :
    (([[1, 2], [3, 4]] : List (List ℚ)).length = 2
      ∧ (∀ row ∈ ([[1, 2], [3, 4]] : List (List ℚ)), row.length = 2)
      ∧ ([5, 6] : List ℚ).length = 2
      ∧ (∀ B ∈ ([[[1, 0], [0, 1]]] : List (List (List ℚ))),
          B.length = 2 ∧ ∀ row ∈ B, row.length = 2)
      ∧ (∀ y ∈ ([[7, 8]] : List (List ℚ)), y.length = 2)) ∧
    (import_matrix 2 2 0 1
        (export_matrix_super [[1, 2], [3, 4]] emptyTensorFiles "dir" "file") "dir" "file"
      = .ok [[1, 2], [3, 4]] ∧
    import_vector 2 0 1
        (export_vector_super [5, 6] emptyTensorFiles "dir" "file") "dir" "file"
      = .ok [5, 6] ∧
    import_matrices 2 2 0 1
        (export_matrices_super [[[1, 0], [0, 1]]] emptyTensorFiles "dir" "file") "dir" "file"
      = .ok [[[1, 0], [0, 1]]] ∧
    import_vectors 2 0 1
        (export_vectors_super [[7, 8]] emptyTensorFiles "dir" "file") "dir" "file"
      = .ok [[7, 8]]) :=
  ⟨⟨by decide, by decide, by decide, by decide, by decide⟩,
    export_import_roundtrip [[1, 2], [3, 4]] [5, 6] [[[1, 0], [0, 1]]] [[7, 8]] 2 2 0 1
      emptyTensorFiles "dir" "file" (by decide) (by decide) (by decide) (by decide) (by decide)⟩

/-! ### Truncation index: find-first characterization -/

/-- The scan never returns an index below its starting point. -/
lemma truncFrom_ge (eigenvalues : List ℚ) (N : ℕ) (tol : ℚ) :
    ∀ (fuel k : ℕ), k ≤ truncFrom eigenvalues N tol k fuel := by
  intro fuel
  induction fuel with
  | zero => intro k; simp [truncFrom]
  | succ fuel ih =>
    intro k
    by_cases h : podStopCond eigenvalues N tol k
    · simp [truncFrom, h]
    · simp only [truncFrom, if_neg h]
      exact le_trans (Nat.le_succ k) (ih (k + 1))

/-- The scan advances at most as far as its fuel allows. -/
lemma truncFrom_le (eigenvalues : List ℚ) (N : ℕ) (tol : ℚ) :
    ∀ (fuel k : ℕ), truncFrom eigenvalues N tol k fuel ≤ k + fuel := by
  intro fuel
  induction fuel with
  | zero => intro k; simp [truncFrom]
  | succ fuel ih =>
    intro k
    by_cases h : podStopCond eigenvalues N tol k
    · simp [truncFrom, h]
    · simp only [truncFrom, if_neg h]
      calc truncFrom eigenvalues N tol (k + 1) fuel ≤ (k + 1) + fuel := ih (k + 1)
        _ = k + (fuel + 1) := by omega

/-- Every index strictly between the start of the scan and its result fails
the stopping condition. -/
lemma truncFrom_min (eigenvalues : List ℚ) (N : ℕ) (tol : ℚ) :
    ∀ (fuel k j : ℕ), k ≤ j → j < truncFrom eigenvalues N tol k fuel →
      ¬ podStopCond eigenvalues N tol j := by
  intro fuel
  induction fuel with
  | zero =>
    intro k j hkj hlt
    simp only [truncFrom] at hlt
    omega
  | succ fuel ih =>
    intro k j hkj hlt
    by_cases h : podStopCond eigenvalues N tol k
    · simp only [truncFrom, if_pos h] at hlt
      omega
    · simp only [truncFrom, if_neg h] at hlt
      rcases Nat.eq_or_lt_of_le hkj with rfl | hkj'
      · exact h
      · exact ih (k + 1) j hkj' hlt

/-- If the scan halts before its fuel runs out, the returned index satisfies
the stopping condition. -/
lemma truncFrom_cond (eigenvalues : List ℚ) (N : ℕ) (tol : ℚ) :
    ∀ (fuel k : ℕ), truncFrom eigenvalues N tol k fuel < k + fuel →
      podStopCond eigenvalues N tol (truncFrom eigenvalues N tol k fuel) := by
  intro fuel
  induction fuel with
  | zero =>
    intro k hlt
    simp only [truncFrom] at hlt ⊢
    omega
  | succ fuel ih =>
    intro k hlt
    by_cases h : podStopCond eigenvalues N tol k
    · simp only [truncFrom, if_pos h]
      exact h
    · simp only [truncFrom, if_neg h] at hlt ⊢
      exact ih (k + 1) (by omega)

/-- When all eigenvalues vanish, no mode is retained. -/
lemma retainedModesCount_all_zero (eigenvalues : List ℚ) (N : ℕ) (tol : ℚ)
    (h : ∀ lam ∈ eigenvalues, lam = 0) : retainedModesCount eigenvalues N tol = 0 := by
  unfold retainedModesCount
  rw [if_pos h]

/-- A list of non-negative rationals with a non-zero member has positive sum. -/
lemma list_sum_pos_of_nonneg_of_ne (l : List ℚ) (hnn : ∀ x ∈ l, 0 ≤ x)
    (hnz : ¬ ∀ x ∈ l, x = 0) : 0 < l.sum := by
  push_neg at hnz
  obtain ⟨x, hxl, hxne⟩ := hnz
  have hxpos : 0 < x := lt_of_le_of_ne (hnn x hxl) (Ne.symm hxne)
  exact lt_of_lt_of_le hxpos (List.single_le_sum hnn x hxl)

/-- With non-negative eigenvalues not all zero and a non-negative tolerance,
the retained-modes count is the least index satisfying the stopping
condition. -/
lemma retainedModesCount_isLeast (eigenvalues : List ℚ) (N : ℕ) (tol : ℚ)
    (hnn : ∀ x ∈ eigenvalues, 0 ≤ x) (htol : 0 ≤ tol)
    (hnz : ¬ ∀ x ∈ eigenvalues, x = 0) :
    IsLeast {k | podStopCond eigenvalues N tol k} (retainedModesCount eigenvalues N tol) := by
  have hsum : 0 < eigenvalues.sum := list_sum_pos_of_nonneg_of_ne eigenvalues hnn hnz
  have hr : retainedModesCount eigenvalues N tol
      = truncFrom eigenvalues N tol 0 (eigenvalues.length + 1) := by
    simp [retainedModesCount, hnz]
  -- an index within fuel range satisfying the condition
  have hex : ∃ m, m ≤ eigenvalues.length ∧ podStopCond eigenvalues N tol m := by
    rcases le_or_lt N eigenvalues.length with hN | hN
    · exact ⟨N, hN, Or.inl rfl⟩
    · refine ⟨eigenvalues.length, le_refl _, Or.inr ?_⟩
      unfold retainedEnergy
      rw [List.take_length, div_self (ne_of_gt hsum)]
      linarith
  obtain ⟨m, hm, hcm⟩ := hex
  set r := truncFrom eigenvalues N tol 0 (eigenvalues.length + 1) with hrdef
  have hrm : r ≤ m := by
    by_contra hgt
    push_neg at hgt
    exact truncFrom_min eigenvalues N tol (eigenvalues.length + 1) 0 m (Nat.zero_le m)
      hgt hcm
  have hcond : podStopCond eigenvalues N tol r := by
    have : r < 0 + (eigenvalues.length + 1) := by omega
    simpa using truncFrom_cond eigenvalues N tol (eigenvalues.length + 1) 0 this
  rw [hr]
  refine ⟨hcond, ?_⟩
  intro j hj
  by_contra hgt
  push_neg at hgt
  exact truncFrom_min eigenvalues N tol (eigenvalues.length + 1) 0 j (Nat.zero_le j) hgt hj

/-! ### Correlation matrix algebra -/

/-- Applying a dense matrix and reading an in-range row pairs that row with
the vector. -/
lemma matVecQ_getD (A : List (List ℚ)) (x : List ℚ) (i : ℕ) (h : i < A.length) :
    (matVecQ A x).getD i 0 = dotQ (A.getD i []) x := by
  unfold matVecQ
  rw [getD_map_get _ 0 A i h, getD_lt_eq_get [] A i h]

/-- Reading an in-range row of the correlation matrix. -/
lemma correlationMatrixF_getD (f : List ℚ → List ℚ → ℚ) (snaps : List (List ℚ))
    (i : ℕ) (hi : i < snaps.length) :
    (correlationMatrixF f snaps).getD i []
      = snaps.map (fun sj => f sj (snaps.getD i [])) := by
  unfold correlationMatrixF
  rw [getD_map_get _ [] snaps i hi, getD_lt_eq_get [] snaps i hi]

/-- Pairing a mapped snapshot list against a vector, as an indexed sum. -/
lemma dotQ_map_left (g : List ℚ → ℚ) (snaps : List (List ℚ)) (v : List ℚ) :
    dotQ (snaps.map g) v
      = ∑ j in Finset.range snaps.length, g (snaps.getD j []) * v.getD j 0 := by
  show (∑ j in Finset.range (snaps.map g).length, _) = _
  rw [List.length_map]
  refine Finset.sum_congr rfl fun j hj => ?_
  have hj' : j < snaps.length := Finset.mem_range.mp hj
  rw [getD_map_get g 0 snaps j hj', getD_lt_eq_get [] snaps j hj']

/-- The inner-product action as an indexed sum over the second argument. -/
lemma matActionQ_eval (A : List (List ℚ)) (x y : List ℚ) (d : ℕ) (hA : A.length = d)
    (hy : y.length = d) :
    matActionQ A x y = ∑ p in Finset.range d, y.getD p 0 * dotQ (A.getD p []) x := by
  show (∑ p in Finset.range y.length, y.getD p 0 * (matVecQ A x).getD p 0) = _
  rw [hy]
  refine Finset.sum_congr rfl fun p hp => ?_
  rw [matVecQ_getD A x p (by rw [hA]; exact Finset.mem_range.mp hp)]

/-- Reading an in-range entry of a mode reconstruction. -/
lemma lincomb_getD (w : List ℚ) (snaps : List (List ℚ)) (d p : ℕ) (hp : p < d) :
    (lincomb w snaps d).getD p 0
      = ∑ i in Finset.range snaps.length, w.getD i 0 * (snaps.getD i []).getD p 0 := by
  unfold lincomb
  rw [getD_map_get _ 0 (List.range d) p (by simpa using hp)]
  simp

/-- A mode reconstruction has the dimension of the function space. -/
lemma lincomb_length (w : List ℚ) (snaps : List (List ℚ)) (d : ℕ) :
    (lincomb w snaps d).length = d := by
  simp [lincomb]

/-- Pairing a vector with an eigenvalue-scaled copy of itself. -/
lemma dotQ_map_smul (v : List ℚ) (lam : ℚ) :
    dotQ v (v.map (fun a => lam * a)) = lam * dotQ v v := by
  unfold dotQ
  rw [Finset.mul_sum]
  refine Finset.sum_congr rfl fun i hi => ?_
  have hi' : i < v.length := Finset.mem_range.mp hi
  rw [getD_map_get _ 0 v i hi', getD_lt_eq_get (0 : ℚ) v i hi']
  ring

/-- The self-pairing of a vector with a non-zero entry is positive. -/
lemma dotQ_self_pos (v : List ℚ) (hvnz : ∃ p, p < v.length ∧ v.getD p 0 ≠ 0) :
    0 < dotQ v v := by
  unfold dotQ
  obtain ⟨p, hp, hne⟩ := hvnz
  refine Finset.sum_pos' (fun i _ => mul_self_nonneg _) ?_
  exact ⟨p, Finset.mem_range.mpr hp, mul_self_pos.mpr hne⟩

/-- Rotating the innermost summation index of a triple sum to the front. -/
lemma sum_rotate {M : Type _} [AddCommMonoid M] (s t u : Finset ℕ) (F : ℕ → ℕ → ℕ → M) :
    (∑ p in s, ∑ q in t, ∑ j in u, F p q j) = ∑ j in u, ∑ p in s, ∑ q in t, F p q j := by
  have step1 : (∑ p in s, ∑ q in t, ∑ j in u, F p q j)
      = ∑ p in s, ∑ j in u, ∑ q in t, F p q j :=
    Finset.sum_congr rfl fun p _ => Finset.sum_comm
  rw [step1]
  exact Finset.sum_comm

/-- The quadratic form of the correlation matrix at a weight vector equals the
supplied inner-product action evaluated at the corresponding snapshot
combination. -/
lemma correlation_quadform (A snaps : List (List ℚ)) (v : List ℚ) (d : ℕ)
    (hA : A.length = d) (hAr : ∀ r ∈ A, r.length = d) (hs : ∀ s ∈ snaps, s.length = d)
    (hv : v.length = snaps.length) :
    dotQ v (matVecQ (correlationMatrixF (matActionQ A) snaps) v)
      = matActionQ A (lincomb v snaps d) (lincomb v snaps d) := by
  have si_len : ∀ i, i < snaps.length → (snaps.getD i []).length = d :=
    fun i hi => hs _ (getD_lt_mem [] snaps i hi)
  have ap_len : ∀ p, p < d → (A.getD p []).length = d :=
    fun p hp => hAr _ (getD_lt_mem [] A p (by rw [hA]; exact hp))
  have hC_len : (correlationMatrixF (matActionQ A) snaps).length = snaps.length := by
    simp [correlationMatrixF]
  -- canonical quadruple sum
  set T := ∑ i in Finset.range snaps.length, ∑ j in Finset.range snaps.length,
      ∑ p in Finset.range d, ∑ q in Finset.range d,
        v.getD i 0 * v.getD j 0 * (snaps.getD i []).getD p 0
          * (A.getD p []).getD q 0 * (snaps.getD j []).getD q 0 with hT
  have hL : dotQ v (matVecQ (correlationMatrixF (matActionQ A) snaps) v) = T := by
    show (∑ i in Finset.range v.length,
        v.getD i 0 * (matVecQ (correlationMatrixF (matActionQ A) snaps) v).getD i 0) = T
    rw [hv, hT]
    refine Finset.sum_congr rfl fun i hi => ?_
    have hi' : i < snaps.length := Finset.mem_range.mp hi
    rw [matVecQ_getD _ v i (by rw [hC_len]; exact hi'),
      correlationMatrixF_getD _ snaps i hi', dotQ_map_left, Finset.mul_sum]
    refine Finset.sum_congr rfl fun j hj => ?_
    have hj' : j < snaps.length := Finset.mem_range.mp hj
    rw [matActionQ_eval A (snaps.getD j []) (snaps.getD i []) d hA (si_len i hi')]
    have hdq : ∀ p, p < d → dotQ (A.getD p []) (snaps.getD j [])
        = ∑ q in Finset.range d, (A.getD p []).getD q 0 * (snaps.getD j []).getD q 0 := by
      intro p hp
      show (∑ q in Finset.range (A.getD p []).length, _) = _
      rw [ap_len p hp]
    rw [Finset.sum_congr rfl fun p hp => by
      rw [hdq p (Finset.mem_range.mp hp)]]
    simp only [Finset.mul_sum, Finset.sum_mul]
    refine Finset.sum_congr rfl fun p _ => Finset.sum_congr rfl fun q _ => by ring
  have hR : matActionQ A (lincomb v snaps d) (lincomb v snaps d) = T := by
    rw [matActionQ_eval A _ _ d hA (lincomb_length v snaps d)]
    have hdq : ∀ p, p < d → dotQ (A.getD p []) (lincomb v snaps d)
        = ∑ q in Finset.range d, (A.getD p []).getD q 0 * (lincomb v snaps d).getD q 0 := by
      intro p hp
      show (∑ q in Finset.range (A.getD p []).length, _) = _
      rw [ap_len p hp]
    have expand : (∑ p in Finset.range d,
        (lincomb v snaps d).getD p 0 * dotQ (A.getD p []) (lincomb v snaps d))
        = ∑ p in Finset.range d, ∑ i in Finset.range snaps.length,
            ∑ q in Finset.range d, ∑ j in Finset.range snaps.length,
              v.getD i 0 * v.getD j 0 * (snaps.getD i []).getD p 0
                * (A.getD p []).getD q 0 * (snaps.getD j []).getD q 0 := by
      refine Finset.sum_congr rfl fun p hp => ?_
      have hp' : p < d := Finset.mem_range.mp hp
      rw [hdq p hp', lincomb_getD v snaps d p hp']
      have h3 : (∑ q in Finset.range d,
          (A.getD p []).getD q 0 * (lincomb v snaps d).getD q 0)
          = ∑ q in Finset.range d, (A.getD p []).getD q 0 *
              ∑ j in Finset.range snaps.length,
                v.getD j 0 * (snaps.getD j []).getD q 0 := by
        refine Finset.sum_congr rfl fun q hq => ?_
        rw [lincomb_getD v snaps d q (Finset.mem_range.mp hq)]
      rw [h3, Finset.sum_mul]
      refine Finset.sum_congr rfl fun i _ => ?_
      rw [Finset.mul_sum]
      refine Finset.sum_congr rfl fun q _ => ?_
      rw [Finset.mul_sum, Finset.mul_sum]
      refine Finset.sum_congr rfl fun j _ => by ring
    rw [expand, Finset.sum_comm, hT]
    refine Finset.sum_congr rfl fun i _ => ?_
    exact sum_rotate (Finset.range d) (Finset.range d) (Finset.range snaps.length) _
  rw [hL, hR]

/-- Every eigenvalue of the correlation matrix built from a positive
semi-definite inner product is non-negative. -/
lemma correlation_eigenvalue_nonneg (A snaps : List (List ℚ)) (v : List ℚ) (lam : ℚ)
    (d : ℕ) (hA : A.length = d) (hAr : ∀ r ∈ A, r.length = d)
    (hs : ∀ s ∈ snaps, s.length = d) (hv : v.length = snaps.length)
    (hPSD : ∀ x : List ℚ, 0 ≤ matActionQ A x x)
    (hvnz : ∃ p, p < v.length ∧ v.getD p 0 ≠ 0)
    (heig : matVecQ (correlationMatrixF (matActionQ A) snaps) v
      = v.map (fun a => lam * a)) :
    0 ≤ lam := by
  have hq : 0 ≤ lam * dotQ v v := by
    rw [← dotQ_map_smul v lam, ← heig,
      correlation_quadform A snaps v d hA hAr hs hv]
    exact hPSD _
  have hpos : 0 < dotQ v v := dotQ_self_pos v hvnz
  by_contra hneg
  push_neg at hneg
  have : lam * dotQ v v < 0 := mul_neg_of_neg_of_pos hneg hpos
  linarith

/-! ### Sorted eigenpairs and retained-pair access -/

/-- The eigenvalues of the sorted pairs are a permutation of the solver
output. -/
lemma sortedEigenpairs_map_fst_perm (ev0 : List ℚ) (evec0 : List (List ℚ))
    (h : ev0.length ≤ evec0.length) :
    ((sortedEigenpairs ev0 evec0).map Prod.fst).Perm ev0 := by
  have h1 := (List.perm_insertionSort (fun p q : ℚ × List ℚ => q.1 ≤ p.1)
    (ev0.zip evec0)).map Prod.fst
  rwa [List.map_fst_zip ev0 evec0 h] at h1

/-- The eigenvalues of the sorted pairs are sorted descending. -/
lemma sortedEigenpairs_sorted_fst (ev0 : List ℚ) (evec0 : List (List ℚ)) :
    List.Sorted (· ≥ ·) ((sortedEigenpairs ev0 evec0).map Prod.fst) := by
  have hs := List.sorted_insertionSort (fun p q : ℚ × List ℚ => q.1 ≤ p.1)
    (ev0.zip evec0)
  exact List.Pairwise.map Prod.fst (fun _ _ hab => hab) hs

/-- An eigenvalue of the sorted pairs comes from the solver output. -/
lemma mem_fst_sortedEigenpairs (ev0 : List ℚ) (evec0 : List (List ℚ)) (x : ℚ)
    (hx : x ∈ (sortedEigenpairs ev0 evec0).map Prod.fst) : x ∈ ev0 := by
  obtain ⟨p, hp, rfl⟩ := List.mem_map.mp hx
  have hz : p ∈ ev0.zip evec0 := by simpa [sortedEigenpairs] using hp
  have := List.of_mem_zip (show (p.1, p.2) ∈ ev0.zip evec0 from by simpa using hz)
  exact this.1

/-- A member of a zip is the pair of entries of its two lists at a common
index. -/
lemma mem_zip_getD {α β : Type _} (dx : α) (dy : β) :
    ∀ (l1 : List α) (l2 : List β) (p : α × β), p ∈ l1.zip l2 →
      ∃ i, i < l1.length ∧ i < l2.length ∧ l1.getD i dx = p.1 ∧ l2.getD i dy = p.2
  | [], _, p, h => by simp at h
  | _ :: _, [], p, h => by simp at h
  | a :: l1, b :: l2, p, h => by
    rcases List.mem_cons.mp h with hab | htail
    · exact ⟨0, by simp, by simp, by simp [hab], by simp [hab]⟩
    · obtain ⟨i, h1, h2, h3, h4⟩ := mem_zip_getD dx dy l1 l2 p htail
      exact ⟨i + 1, by simpa using Nat.succ_lt_succ h1,
        by simpa using Nat.succ_lt_succ h2, h3, h4⟩

/-- Reading a mapped range at an in-range index. -/
lemma getD_map_range {β : Type _} (f : ℕ → β) (dflt : β) (k i : ℕ) (h : i < k) :
    ((List.range k).map f).getD i dflt = f i := by
  rw [getD_map_get f dflt (List.range k) i (by simpa using h)]
  simp

/-- Reading the eigenvalue component through `map Prod.fst`. -/
lemma getD_map_pair_fst :
    ∀ (l : List (ℚ × List ℚ)) (i : ℕ),
      (l.map Prod.fst).getD i 0 = (l.getD i ((0 : ℚ), ([] : List ℚ))).1
  | [], _ => rfl
  | _ :: _, 0 => rfl
  | _ :: l, i + 1 => getD_map_pair_fst l i

/-- Reading the eigenvector component through `map Prod.snd`. -/
lemma getD_map_pair_snd :
    ∀ (l : List (ℚ × List ℚ)) (i : ℕ),
      (l.map Prod.snd).getD i [] = (l.getD i ((0 : ℚ), ([] : List ℚ))).2
  | [], _ => rfl
  | _ :: _, 0 => rfl
  | _ :: l, i + 1 => getD_map_pair_snd l i

/-- The eigenvalue field of the retained result is the sorted eigenvalue
array, untouched. -/
lemma podRetain_eigenvalues (sq : ℚ → ℚ) (snapshots : List (List ℚ)) (d : ℕ)
    (scale : List ℚ → ℚ → List ℚ) (ev : List ℚ) (evec : List (List ℚ))
    (N : ℕ) (tol : ℚ) (normalize : Bool) :
    (podRetain sq snapshots d scale ev evec N tol normalize).eigenvalues = ev := rfl

/-- The number of retained modes is the truncation count. -/
lemma podRetain_modes_length (sq : ℚ → ℚ) (snapshots : List (List ℚ)) (d : ℕ)
    (scale : List ℚ → ℚ → List ℚ) (ev : List ℚ) (evec : List (List ℚ))
    (N : ℕ) (tol : ℚ) (normalize : Bool) :
    (podRetain sq snapshots d scale ev evec N tol normalize).modes.length
      = retainedModesCount ev N tol := by
  simp [podRetain]

/-- The number of retained eigenvectors is the truncation count. -/
lemma podRetain_eigenvectors_length (sq : ℚ → ℚ) (snapshots : List (List ℚ)) (d : ℕ)
    (scale : List ℚ → ℚ → List ℚ) (ev : List ℚ) (evec : List (List ℚ))
    (N : ℕ) (tol : ℚ) (normalize : Bool) :
    (podRetain sq snapshots d scale ev evec N tol normalize).eigenvectors.length
      = retainedModesCount ev N tol := by
  simp [podRetain]

/-- Reading one retained normalized mode and eigenvector. -/
lemma podRetain_getD (sq : ℚ → ℚ) (snapshots : List (List ℚ)) (d : ℕ)
    (scale : List ℚ → ℚ → List ℚ) (ev : List ℚ) (evec : List (List ℚ))
    (N : ℕ) (tol : ℚ) (i : ℕ) (hi : i < retainedModesCount ev N tol) :
    (podRetain sq snapshots d scale ev evec N tol true).modes.getD i []
      = (if 0 < ev.getD i 0 then
          scale (lincomb (evec.getD i []) snapshots d) (1 / sq (ev.getD i 0))
        else lincomb (evec.getD i []) snapshots d) ∧
    (podRetain sq snapshots d scale ev evec N tol true).eigenvectors.getD i []
      = (if 0 < ev.getD i 0 then scale (evec.getD i []) (1 / sq (ev.getD i 0))
        else evec.getD i []) := by
  unfold podRetain
  simp only [List.map_map]
  constructor
  · rw [getD_map_range _ ([] : List ℚ) _ i hi]
    simp only [Function.comp]
    split_ifs <;> rfl
  · rw [getD_map_range _ ([] : List ℚ) _ i hi]
    simp only [Function.comp]
    split_ifs <;> rfl

/-- Unfolding the functions-flavoured POD at a known solver output. -/
lemma pod_functions_eig (sq : ℚ → ℚ)
    (solver : List (List ℚ) → List ℚ × List (List ℚ))
    (snapshots inner_product : List (List ℚ)) (d N : ℕ) (tol : ℚ) (normalize : Bool)
    (ev0 : List ℚ) (evec0 : List (List ℚ))
    (hsolve : solver (correlationMatrixF (matActionQ inner_product) snapshots)
      = (ev0, evec0)) :
    proper_orthogonal_decomposition_functions sq solver snapshots inner_product d
        N tol normalize
      = podRetain sq snapshots d _scale_online_vector
          ((sortedEigenpairs ev0 evec0).map Prod.fst)
          ((sortedEigenpairs ev0 evec0).map Prod.snd) N tol normalize := by
  simp only [proper_orthogonal_decomposition_functions,
    proper_orthogonal_decomposition_functions_super, hsolve]

/-- The empty inner-product matrix is positive semi-definite. -/
lemma matActionQ_nil_nonneg (x : List ℚ) : 0 ≤ matActionQ ([] : List (List ℚ)) x x := by
  have h : matActionQ ([] : List (List ℚ)) x x = 0 := by
    unfold matActionQ matVecQ dotQ
    exact Finset.sum_eq_zero fun i _ => by simp
  rw [h]

/-! ### Claims C2, C3, C4, C5, C10: POD engine -/

/-- C10: calling `proper_orthogonal_decomposition` with a first argument whose
runtime type is neither `FunctionsList` nor `TensorsList` falls through to the
undispatched base implementation and raises
`RuntimeError("Please run the dispatched implementation.")` — for every
solver, dimension and truncation parameters, so no correlation-matrix or
eigenvalue computation takes place. -/
theorem pod_dispatch_base_error (sq : ℚ → ℚ)
    (solver : List (List ℚ) → List ℚ × List (List ℚ)) (d : ℕ) (obj : String)
    (N : ℕ) (tol : ℚ) (normalize : Bool) :
    proper_orthogonal_decomposition sq solver d (PODDispatchArg.otherObject obj)
        N tol normalize
      = Except.error "Please run the dispatched implementation." := rfl

/-- C2 (counterexample): with two snapshots, the identity inner product, a
solver returning one eigenpair per snapshot, and truncation `N = 1`,
`tol = 0`, the returned eigenvector list has one entry — not one eigenvector
per snapshot. -/
theorem pod_eigenvectors_not_full_counterexample :
    (proper_orthogonal_decomposition_functions (fun q => q)
        (fun _ => (([1, 1] : List ℚ), ([[1, 0], [0, 1]] : List (List ℚ))))
        [[1, 0], [0, 1]] [[1, 0], [0, 1]] 2 1 0 true).eigenvectors.length
      ≠ ([[(1 : ℚ), 0], [0, 1]] : List (List ℚ)).length := by
  norm_num [proper_orthogonal_decomposition_functions,
    proper_orthogonal_decomposition_functions_super, podRetain, sortedEigenpairs,
    List.insertionSort, List.orderedInsert, retainedModesCount, truncFrom, podStopCond,
    retainedEnergy]

/-- C2 (amended): `proper_orthogonal_decomposition` returns the eigenvalue
array in full — one eigenvalue per snapshot, regardless of the truncation
parameters `N` and `tol` — while the eigenvectors are returned truncated to
the retained-modes count. -/
theorem pod_full_spectrum_truncated_eigenvectors (sq : ℚ → ℚ)
    (solver : List (List ℚ) → List ℚ × List (List ℚ))
    (snapshots inner_product : List (List ℚ)) (d N : ℕ) (tol : ℚ) (normalize : Bool)
    (ev0 : List ℚ) (evec0 : List (List ℚ))
    (hsolve : solver (correlationMatrixF (matActionQ inner_product) snapshots)
      = (ev0, evec0))
    (hev : ev0.length = snapshots.length) (hevec : evec0.length = snapshots.length) :
    (proper_orthogonal_decomposition_functions sq solver snapshots inner_product d
        N tol normalize).eigenvalues.Perm ev0 ∧
    (proper_orthogonal_decomposition_functions sq solver snapshots inner_product d
        N tol normalize).eigenvalues.length = snapshots.length ∧
    (proper_orthogonal_decomposition_functions sq solver snapshots inner_product d
        N tol normalize).eigenvectors.length
      = retainedModesCount (proper_orthogonal_decomposition_functions sq solver
          snapshots inner_product d N tol normalize).eigenvalues N tol := by
  have hle : ev0.length ≤ evec0.length := le_of_eq (hev.trans hevec.symm)
  rw [pod_functions_eig sq solver snapshots inner_product d N tol normalize ev0 evec0
    hsolve, podRetain_eigenvalues, podRetain_eigenvectors_length]
  refine ⟨sortedEigenpairs_map_fst_perm ev0 evec0 hle, ?_, rfl⟩
  rw [(sortedEigenpairs_map_fst_perm ev0 evec0 hle).length_eq, hev]

/-- C2 (witness): concrete instantiation of the amended claim at two
snapshots with the identity inner product, `N = 1`, `tol = 0`. -/
theorem pod_full_spectrum_truncated_eigenvectors_witness :
    ((fun _ : List (List ℚ) => (([1, 1] : List ℚ), ([[1, 0], [0, 1]] : List (List ℚ))))
        (correlationMatrixF (matActionQ [[1, 0], [0, 1]]) [[1, 0], [0, 1]])
      = (([1, 1] : List ℚ), ([[1, 0], [0, 1]] : List (List ℚ)))) ∧
    (([1, 1] : List ℚ).length = ([[1, 0], [0, 1]] : List (List ℚ)).length) ∧
    (([[1, 0], [0, 1]] : List (List ℚ)).length
      = ([[(1 : ℚ), 0], [0, 1]] : List (List ℚ)).length) ∧
    ((proper_orthogonal_decomposition_functions (fun q => q)
        (fun _ => (([1, 1] : List ℚ), ([[1, 0], [0, 1]] : List (List ℚ))))
        [[1, 0], [0, 1]] [[1, 0], [0, 1]] 2 1 0 true).eigenvalues.Perm [1, 1] ∧
      (proper_orthogonal_decomposition_functions (fun q => q)
        (fun _ => (([1, 1] : List ℚ), ([[1, 0], [0, 1]] : List (List ℚ))))
        [[1, 0], [0, 1]] [[1, 0], [0, 1]] 2 1 0 true).eigenvalues.length
        = ([[(1 : ℚ), 0], [0, 1]] : List (List ℚ)).length ∧
      (proper_orthogonal_decomposition_functions (fun q => q)
        (fun _ => (([1, 1] : List ℚ), ([[1, 0], [0, 1]] : List (List ℚ))))
        [[1, 0], [0, 1]] [[1, 0], [0, 1]] 2 1 0 true).eigenvectors.length
        = retainedModesCount (proper_orthogonal_decomposition_functions (fun q => q)
            (fun _ => (([1, 1] : List ℚ), ([[1, 0], [0, 1]] : List (List ℚ))))
            [[1, 0], [0, 1]] [[1, 0], [0, 1]] 2 1 0 true).eigenvalues 1 0) :=
  ⟨rfl, rfl, rfl,
    pod_full_spectrum_truncated_eigenvectors (fun q => q)
      (fun _ => (([1, 1] : List ℚ), ([[1, 0], [0, 1]] : List (List ℚ))))
      [[1, 0], [0, 1]] [[1, 0], [0, 1]] 2 1 0 true [1, 1] [[1, 0], [0, 1]]
      rfl rfl rfl⟩

/-- C3: for eigenvalues sorted descending, non-negative, with a non-negative
tolerance, the number of retained modes (and retained eigenvectors) is the
least index `k` with `k = N` or retained energy at least `1 - tol`; when all
eigenvalues are zero, no mode is retained. -/
theorem pod_truncation_spec (sq : ℚ → ℚ)
    (solver : List (List ℚ) → List ℚ × List (List ℚ))
    (snapshots inner_product : List (List ℚ)) (d N : ℕ) (tol : ℚ) (normalize : Bool)
    (ev0 : List ℚ) (evec0 : List (List ℚ))
    (hsolve : solver (correlationMatrixF (matActionQ inner_product) snapshots)
      = (ev0, evec0))
    (hsorted : List.Sorted (· ≥ ·) ev0)
    (hnn : ∀ x ∈ ev0, 0 ≤ x) (htol : 0 ≤ tol) :
    (proper_orthogonal_decomposition_functions sq solver snapshots inner_product d
        N tol normalize).modes.length
      = retainedModesCount (proper_orthogonal_decomposition_functions sq solver
          snapshots inner_product d N tol normalize).eigenvalues N tol ∧
    (proper_orthogonal_decomposition_functions sq solver snapshots inner_product d
        N tol normalize).eigenvectors.length
      = retainedModesCount (proper_orthogonal_decomposition_functions sq solver
          snapshots inner_product d N tol normalize).eigenvalues N tol ∧
    ((∀ x ∈ (proper_orthogonal_decomposition_functions sq solver snapshots
        inner_product d N tol normalize).eigenvalues, x = 0) →
      retainedModesCount (proper_orthogonal_decomposition_functions sq solver
          snapshots inner_product d N tol normalize).eigenvalues N tol = 0) ∧
    (¬ (∀ x ∈ (proper_orthogonal_decomposition_functions sq solver snapshots
        inner_product d N tol normalize).eigenvalues, x = 0) →
      IsLeast {k | k = N ∨ 1 - tol ≤ retainedEnergy
          (proper_orthogonal_decomposition_functions sq solver snapshots inner_product
            d N tol normalize).eigenvalues k}
        (retainedModesCount (proper_orthogonal_decomposition_functions sq solver
          snapshots inner_product d N tol normalize).eigenvalues N tol)) := by
  rw [pod_functions_eig sq solver snapshots inner_product d N tol normalize ev0 evec0
    hsolve, podRetain_eigenvalues, podRetain_modes_length, podRetain_eigenvectors_length]
  refine ⟨rfl, rfl, ?_, ?_⟩
  · intro h
    exact retainedModesCount_all_zero _ N tol h
  · intro hnz
    have hnn' : ∀ x ∈ (sortedEigenpairs ev0 evec0).map Prod.fst, 0 ≤ x :=
      fun x hx => hnn x (mem_fst_sortedEigenpairs ev0 evec0 x hx)
    exact retainedModesCount_isLeast _ N tol hnn' htol hnz

/-- C3 (witness): concrete instantiation of the truncation characterization
at eigenvalues `[4, 1, 0]`, `N = 2`, `tol = 1/5`. -/
theorem pod_truncation_spec_witness :
    ((fun _ : List (List ℚ) =>
        (([4, 1, 0] : List ℚ), ([[1, 0, 0], [0, 1, 0], [0, 0, 1]] : List (List ℚ))))
        (correlationMatrixF (matActionQ [[1, 0, 0], [0, 1, 0], [0, 0, 1]])
          [[1, 0, 0], [0, 1, 0], [0, 0, 1]])
      = (([4, 1, 0] : List ℚ), ([[1, 0, 0], [0, 1, 0], [0, 0, 1]] : List (List ℚ)))) ∧
    List.Sorted (· ≥ ·) ([4, 1, 0] : List ℚ) ∧
    (∀ x ∈ ([4, 1, 0] : List ℚ), 0 ≤ x) ∧ ((0 : ℚ) ≤ 1/5) ∧
    (podExampleC3.modes.length = retainedModesCount podExampleC3.eigenvalues 2 (1/5) ∧
      podExampleC3.eigenvectors.length
        = retainedModesCount podExampleC3.eigenvalues 2 (1/5) ∧
      ((∀ x ∈ podExampleC3.eigenvalues, x = 0) →
        retainedModesCount podExampleC3.eigenvalues 2 (1/5) = 0) ∧
      (¬ (∀ x ∈ podExampleC3.eigenvalues, x = 0) →
        IsLeast {k | k = 2 ∨ 1 - 1/5 ≤ retainedEnergy podExampleC3.eigenvalues k}
          (retainedModesCount podExampleC3.eigenvalues 2 (1/5)))) :=
  ⟨rfl, by norm_num [List.sorted_cons], by norm_num, by norm_num,
    pod_truncation_spec (fun q => q)
      (fun _ => (([4, 1, 0] : List ℚ),
        ([[1, 0, 0], [0, 1, 0], [0, 0, 1]] : List (List ℚ))))
      [[1, 0, 0], [0, 1, 0], [0, 0, 1]] [[1, 0, 0], [0, 1, 0], [0, 0, 1]] 3 2 (1/5) true
      [4, 1, 0] [[1, 0, 0], [0, 1, 0], [0, 0, 1]] rfl (by norm_num [List.sorted_cons])
      (by norm_num) (by norm_num)⟩

/-- C4: with normalization on, a retained eigenpair with positive eigenvalue
has its mode and eigenvector scaled by `1 / sqrt(eigenvalue)`, while a
retained eigenpair with zero eigenvalue is returned unscaled — no division by
zero occurs and no error is raised. -/
theorem pod_normalize_zero_eigenvalue_safe (sq : ℚ → ℚ)
    (solver : List (List ℚ) → List ℚ × List (List ℚ))
    (snapshots inner_product : List (List ℚ)) (d N : ℕ) (tol : ℚ) (i : ℕ)
    (ev0 : List ℚ) (evec0 : List (List ℚ))
    (hsolve : solver (correlationMatrixF (matActionQ inner_product) snapshots)
      = (ev0, evec0))
    (hi : i < retainedModesCount ((sortedEigenpairs ev0 evec0).map Prod.fst) N tol) :
    (0 < ((sortedEigenpairs ev0 evec0).getD i (0, [])).1 →
      (proper_orthogonal_decomposition_functions sq solver snapshots inner_product d
          N tol true).modes.getD i []
        = _scale_online_vector
            (lincomb ((sortedEigenpairs ev0 evec0).getD i (0, [])).2 snapshots d)
            (1 / sq ((sortedEigenpairs ev0 evec0).getD i (0, [])).1) ∧
      (proper_orthogonal_decomposition_functions sq solver snapshots inner_product d
          N tol true).eigenvectors.getD i []
        = _scale_online_vector ((sortedEigenpairs ev0 evec0).getD i (0, [])).2
            (1 / sq ((sortedEigenpairs ev0 evec0).getD i (0, [])).1)) ∧
    (((sortedEigenpairs ev0 evec0).getD i (0, [])).1 = 0 →
      (proper_orthogonal_decomposition_functions sq solver snapshots inner_product d
          N tol true).modes.getD i []
        = lincomb ((sortedEigenpairs ev0 evec0).getD i (0, [])).2 snapshots d ∧
      (proper_orthogonal_decomposition_functions sq solver snapshots inner_product d
          N tol true).eigenvectors.getD i []
        = ((sortedEigenpairs ev0 evec0).getD i (0, [])).2) := by
  rw [pod_functions_eig sq solver snapshots inner_product d N tol true ev0 evec0 hsolve]
  obtain ⟨hm, hv⟩ := podRetain_getD sq snapshots d _scale_online_vector
    ((sortedEigenpairs ev0 evec0).map Prod.fst)
    ((sortedEigenpairs ev0 evec0).map Prod.snd) N tol i hi
  rw [getD_map_pair_fst, getD_map_pair_snd] at hm hv
  constructor
  · intro hpos
    rw [hm, hv, if_pos hpos, if_pos hpos]
    exact ⟨rfl, rfl⟩
  · intro hzero
    have hnpos : ¬ 0 < ((sortedEigenpairs ev0 evec0).getD i (0, ([] : List ℚ))).1 := by
      rw [hzero]
      exact lt_irrefl 0
    rw [hm, hv, if_neg hnpos, if_neg hnpos]
    exact ⟨rfl, rfl⟩

/-- C4 (witness): a concrete run retaining a zero eigenvalue (possible with a
negative tolerance): two snapshots `[[1], [2]]` and a solver output whose
second sorted eigenpair has eigenvalue `0`; the retained mode at index 1 is
left unscaled. -/
theorem pod_normalize_zero_eigenvalue_safe_witness :
    ((fun _ : List (List ℚ) => (([0, 1] : List ℚ), ([[1, 0], [0, 1]] : List (List ℚ))))
        (correlationMatrixF (matActionQ [[1]]) [[1], [2]])
      = (([0, 1] : List ℚ), ([[1, 0], [0, 1]] : List (List ℚ)))) ∧
    (1 < retainedModesCount
        ((sortedEigenpairs [0, 1] [[1, 0], [0, 1]]).map Prod.fst) 2 (-1)) ∧
    ((0 < ((sortedEigenpairs [0, 1] [[1, 0], [0, 1]]).getD 1 (0, [])).1 →
      (proper_orthogonal_decomposition_functions (fun q => q)
          (fun _ => (([0, 1] : List ℚ), ([[1, 0], [0, 1]] : List (List ℚ))))
          [[1], [2]] [[1]] 1 2 (-1) true).modes.getD 1 []
        = _scale_online_vector
            (lincomb ((sortedEigenpairs [0, 1] [[1, 0], [0, 1]]).getD 1 (0, [])).2
              [[1], [2]] 1)
            (1 / (fun q : ℚ => q) ((sortedEigenpairs [0, 1] [[1, 0], [0, 1]]).getD 1
              (0, [])).1) ∧
      (proper_orthogonal_decomposition_functions (fun q => q)
          (fun _ => (([0, 1] : List ℚ), ([[1, 0], [0, 1]] : List (List ℚ))))
          [[1], [2]] [[1]] 1 2 (-1) true).eigenvectors.getD 1 []
        = _scale_online_vector ((sortedEigenpairs [0, 1] [[1, 0], [0, 1]]).getD 1
              (0, [])).2
            (1 / (fun q : ℚ => q) ((sortedEigenpairs [0, 1] [[1, 0], [0, 1]]).getD 1
              (0, [])).1)) ∧
    (((sortedEigenpairs [0, 1] [[1, 0], [0, 1]]).getD 1 (0, [])).1 = 0 →
      (proper_orthogonal_decomposition_functions (fun q => q)
          (fun _ => (([0, 1] : List ℚ), ([[1, 0], [0, 1]] : List (List ℚ))))
          [[1], [2]] [[1]] 1 2 (-1) true).modes.getD 1 []
        = lincomb ((sortedEigenpairs [0, 1] [[1, 0], [0, 1]]).getD 1 (0, [])).2
            [[1], [2]] 1 ∧
      (proper_orthogonal_decomposition_functions (fun q => q)
          (fun _ => (([0, 1] : List ℚ), ([[1, 0], [0, 1]] : List (List ℚ))))
          [[1], [2]] [[1]] 1 2 (-1) true).eigenvectors.getD 1 []
        = ((sortedEigenpairs [0, 1] [[1, 0], [0, 1]]).getD 1 (0, [])).2)) :=
  ⟨rfl,
    by norm_num [sortedEigenpairs, List.insertionSort, List.orderedInsert,
      retainedModesCount, truncFrom, podStopCond, retainedEnergy],
    pod_normalize_zero_eigenvalue_safe (fun q => q)
      (fun _ => (([0, 1] : List ℚ), ([[1, 0], [0, 1]] : List (List ℚ))))
      [[1], [2]] [[1]] 1 2 (-1) 1 [0, 1] [[1, 0], [0, 1]] rfl
      (by norm_num [sortedEigenpairs, List.insertionSort, List.orderedInsert,
        retainedModesCount, truncFrom, podStopCond, retainedEnergy])⟩

/-- C5: the returned eigenvalue array has one entry per snapshot (a
permutation of all computed eigenvalues), is sorted descending, and — when
the inner product is positive semi-definite and the solver returns true
eigenpairs of the correlation matrix — every returned eigenvalue is
non-negative. -/
theorem pod_eigenvalues_sorted_nonneg (sq : ℚ → ℚ)
    (solver : List (List ℚ) → List ℚ × List (List ℚ))
    (snapshots inner_product : List (List ℚ)) (d N : ℕ) (tol : ℚ) (normalize : Bool)
    (ev0 : List ℚ) (evec0 : List (List ℚ))
    (hsolve : solver (correlationMatrixF (matActionQ inner_product) snapshots)
      = (ev0, evec0))
    (hev : ev0.length = snapshots.length) (hevec : evec0.length = snapshots.length)
    (hsnap : ∀ s ∈ snapshots, s.length = d)
    (hip_len : inner_product.length = d)
    (hip_rows : ∀ row ∈ inner_product, row.length = d)
    (hPSD : ∀ x : List ℚ, 0 ≤ matActionQ inner_product x x)
    (hvalid : ∀ i, i < ev0.length →
      (evec0.getD i []).length = snapshots.length ∧
      (∃ p, p < (evec0.getD i []).length ∧ (evec0.getD i []).getD p 0 ≠ 0) ∧
      matVecQ (correlationMatrixF (matActionQ inner_product) snapshots)
          (evec0.getD i [])
        = (evec0.getD i []).map (fun a => ev0.getD i 0 * a)) :
    (proper_orthogonal_decomposition_functions sq solver snapshots inner_product d
        N tol normalize).eigenvalues.length = snapshots.length ∧
    (proper_orthogonal_decomposition_functions sq solver snapshots inner_product d
        N tol normalize).eigenvalues.Perm ev0 ∧
    List.Sorted (· ≥ ·) (proper_orthogonal_decomposition_functions sq solver snapshots
        inner_product d N tol normalize).eigenvalues ∧
    (∀ lam ∈ (proper_orthogonal_decomposition_functions sq solver snapshots
        inner_product d N tol normalize).eigenvalues, 0 ≤ lam) := by
  have hle : ev0.length ≤ evec0.length := le_of_eq (hev.trans hevec.symm)
  rw [pod_functions_eig sq solver snapshots inner_product d N tol normalize ev0 evec0
    hsolve, podRetain_eigenvalues]
  refine ⟨?_, sortedEigenpairs_map_fst_perm ev0 evec0 hle,
    sortedEigenpairs_sorted_fst ev0 evec0, ?_⟩
  · rw [(sortedEigenpairs_map_fst_perm ev0 evec0 hle).length_eq, hev]
  · intro lam hmem
    obtain ⟨p, hp, hfst⟩ := List.mem_map.mp hmem
    have hz : p ∈ ev0.zip evec0 := by simpa [sortedEigenpairs] using hp
    obtain ⟨i, hi1, _, h3, _⟩ := mem_zip_getD (0 : ℚ) ([] : List ℚ) ev0 evec0 p hz
    obtain ⟨hlen_v, hnzv, heig⟩ := hvalid i hi1
    have hlam : ev0.getD i 0 = lam := by rw [h3, hfst]
    exact correlation_eigenvalue_nonneg inner_product snapshots (evec0.getD i []) lam d
      hip_len hip_rows hsnap hlen_v hPSD hnzv (hlam ▸ heig)

/-- C5 (witness): concrete instantiation at one zero-dimensional snapshot
with the empty (trivially positive semi-definite) inner product and the
eigenpair `(0, [1])` of the correlation matrix `[[0]]`. -/
theorem pod_eigenvalues_sorted_nonneg_witness :
    ((fun _ : List (List ℚ) => (([0] : List ℚ), ([[1]] : List (List ℚ))))
        (correlationMatrixF (matActionQ []) [[]])
      = (([0] : List ℚ), ([[1]] : List (List ℚ)))) ∧
    (([0] : List ℚ).length = ([[]] : List (List ℚ)).length) ∧
    (([[1]] : List (List ℚ)).length = ([[]] : List (List ℚ)).length) ∧
    (∀ s ∈ ([[]] : List (List ℚ)), s.length = 0) ∧
    (([] : List (List ℚ)).length = 0) ∧
    (∀ row ∈ ([] : List (List ℚ)), row.length = 0) ∧
    (∀ x : List ℚ, 0 ≤ matActionQ [] x x) ∧
    (∀ i, i < ([0] : List ℚ).length →
      ((([[1]] : List (List ℚ)).getD i []).length = ([[]] : List (List ℚ)).length ∧
      (∃ p, p < (([[1]] : List (List ℚ)).getD i []).length ∧
        (([[1]] : List (List ℚ)).getD i []).getD p 0 ≠ 0) ∧
      matVecQ (correlationMatrixF (matActionQ []) [[]]) (([[1]] : List (List ℚ)).getD i [])
        = (([[1]] : List (List ℚ)).getD i []).map
            (fun a => (([0] : List ℚ).getD i 0) * a))) ∧
    (podExampleC5.eigenvalues.length = ([[]] : List (List ℚ)).length ∧
      podExampleC5.eigenvalues.Perm [0] ∧
      List.Sorted (· ≥ ·) podExampleC5.eigenvalues ∧
      (∀ lam ∈ podExampleC5.eigenvalues, 0 ≤ lam)) :=
  ⟨rfl, rfl, rfl, by norm_num, rfl, by norm_num, fun x => matActionQ_nil_nonneg x,
    by
      intro i hi
      have h0 : i = 0 := Nat.lt_one_iff.mp (by simpa using hi)
      subst h0
      refine ⟨rfl, ⟨0, by norm_num, by norm_num⟩, ?_⟩
      norm_num [matVecQ, dotQ, matActionQ, correlationMatrixF,
        Finset.sum_range_succ, Finset.sum_range_zero],
    pod_eigenvalues_sorted_nonneg (fun q => q)
      (fun _ => (([0] : List ℚ), ([[1]] : List (List ℚ)))) [[]] [] 0 0 0 true
      [0] [[1]] rfl rfl rfl (by norm_num) rfl (by norm_num)
      (fun x => matActionQ_nil_nonneg x)
      (by
        intro i hi
        have h0 : i = 0 := Nat.lt_one_iff.mp (by simpa using hi)
        subst h0
        refine ⟨rfl, ⟨0, by norm_num, by norm_num⟩, ?_⟩
        norm_num [matVecQ, dotQ, matActionQ, correlationMatrixF,
          Finset.sum_range_succ, Finset.sum_range_zero])⟩
